import Mathlib

/-!
Verification of the pyactivetwo client (src/pyactivetwo/client.py) against its
natural-language specification.  The Python code is shallowly embedded:
machine integers become `ℕ` (all values involved are 24-bit unsigned, far from
any overflow boundary), Python floats are modelled as exact rationals, byte
strings become `List ℕ`, and fallible code (a `KeyError`, an `IndexError`, a
socket failure) returns `Option`.
-/

namespace PyActiveTwo

/-- The `SPEED_MODE` dictionary of client.py (keys 0–7).  Looking up a missing
key raises `KeyError` in Python; that is modelled as `none`. -/
def SPEED_MODE : ℕ → Option ℕ
  | 0 => some 2048
  | 1 => some 4096
  | 2 => some 8192
  | 3 => some 16384
  | 4 => some 2048
  | 5 => some 4096
  | 6 => some 8192
  | 7 => some 16384
  | _ => none

/-- Model of `is_set(x, bit)` from client.py: `(x & (1 << bit)) != 0`. -/
def is_set (x bit : ℕ) : Bool :=
  x &&& (1 <<< bit) != 0

/-- The local `speed_mode` value computed inside `decode_trigger`:
bits 17, 18, 19, 21 of `x`, packed as bits 0, 1, 2, 3 of the result. -/
def speedModeOf (x : ℕ) : ℕ :=
  ((is_set x 17).toNat <<< 0) +
  ((is_set x 18).toNat <<< 1) +
  ((is_set x 19).toNat <<< 2) +
  ((is_set x 21).toNat <<< 3)

/-- The dictionary returned by `decode_trigger`. -/
structure TriggerStatus where
  trigger : ℕ
  cms_in_range : Bool
  low_battery : Bool
  activeMK2 : Bool
  speed_mode : ℕ
  new_epoch : Bool
  fs : ℕ
deriving DecidableEq, Repr

/-- Model of `decode_trigger(x)` from client.py.  Building the result dictionary
evaluates `SPEED_MODE[speed_mode]`, which raises `KeyError` (here: `none`)
whenever `speed_mode` is not one of the keys 0–7. -/
def decode_trigger (x : ℕ) : Option TriggerStatus :=
  let speed_mode := speedModeOf x
  let trigger : ℕ := 0b1111111111111111
  (SPEED_MODE speed_mode).map fun fsv =>
    { trigger := x &&& trigger
      cms_in_range := is_set x 20
      low_battery := is_set x 22
      activeMK2 := is_set x 23
      speed_mode := speed_mode
      new_epoch := is_set x 16
      fs := fsv }

/-- Channel-group selectors stored in the `slices` dictionary of
`ActiveTwoClient.__init__`: a Python `slice(start, stop)` for row ranges and
the bare index `-1` (`np.s_[-1]`) used for the trigger channel. -/
inductive Sel where
  | slc : ℕ → ℕ → Sel
  | lastIndex : Sel
deriving DecidableEq, Repr

/-- Constructor arguments of `ActiveTwoClient` that shape the channel layout
and frame geometry (host, port and socket timeout belong to the out-of-scope
connection collaborator). -/
structure Config where
  eeg_channels : ℕ
  ex_included : Bool
  sensors_included : Bool
  jazz_included : Bool
  aib_included : Bool
  trigger_included : Bool
  fs : ℕ
deriving DecidableEq, Repr

/-- The `slices` dictionary and final `n_channels` count built in
`ActiveTwoClient.__init__`.  The EEG entry is `np.s_[n_channels:eeg_channels]`
with `n_channels = 0` at that point, exactly as in the source. -/
def buildSlices (cfg : Config) : List (String × Sel) × ℕ :=
  let p0 : List (String × Sel) × ℕ := ([], 0)
  let p1 := if cfg.eeg_channels ≠ 0 then
      (p0.1 ++ [("eeg", Sel.slc p0.2 cfg.eeg_channels)], p0.2 + cfg.eeg_channels)
    else p0
  let p2 := if cfg.ex_included then
      (p1.1 ++ [("ex", Sel.slc p1.2 (p1.2 + 8))], p1.2 + 8) else p1
  let p3 := if cfg.sensors_included then
      (p2.1 ++ [("sensors", Sel.slc p2.2 (p2.2 + 7))], p2.2 + 7) else p2
  let p4 := if cfg.jazz_included then
      (p3.1 ++ [("jazz", Sel.slc p3.2 (p3.2 + 9))], p3.2 + 9) else p3
  let p5 := if cfg.aib_included then
      (p4.1 ++ [("aib", Sel.slc p4.2 (p4.2 + 32))], p4.2 + 32) else p4
  let p6 := if cfg.trigger_included then
      (p5.1 ++ [("trigger", Sel.lastIndex)], p5.2 + 1) else p5
  p6

/-- The sampling-rate validation in `ActiveTwoClient.__init__` (Python floats
modelled as exact rationals): `none` models the two branches raising
`ValueError` with the invalid-sampling-rate message, and `some` carries
`self.tcp_samples = int(128 / decimation_factor)`. -/
def resolveTcpSamples (fs : ℕ) : Option ℕ :=
  if ¬ (256 ≤ fs ∧ fs ≤ 16384) then none
  else if ((16384 : ℚ) / (fs : ℚ)).den ≠ 1 then none
  else some (⌊(128 / ((16384 : ℚ) / (fs : ℚ)) : ℚ)⌋).toNat

/-- The immutable state of a successfully constructed `ActiveTwoClient`. -/
structure Client where
  slices : List (String × Sel)
  n_channels : ℕ
  tcp_samples : ℕ
  buffer_size : ℕ
  fs : ℕ
deriving DecidableEq, Repr

/-- Model of `ActiveTwoClient.__init__`: `none` models the `ValueError`
raised for an invalid sampling rate; otherwise the layout and geometry are
stored. -/
def mkClient (cfg : Config) : Option Client :=
  (resolveTcpSamples cfg.fs).map fun tcp =>
    let p := buildSlices cfg
    { slices := p.1
      n_channels := p.2
      tcp_samples := tcp
      buffer_size := p.2 * tcp * 3
      fs := cfg.fs }

/-- One sample extracted in `ActiveTwoClient._read`:
`(data[offset+2] << 16) + (data[offset+1] << 8) + data[offset]` with
`offset = m * 3 * n_channels + channel * 3`. -/
def sampleAt (data : List ℕ) (n_ch c m : ℕ) : ℕ :=
  (data.getD (m * 3 * n_ch + c * 3 + 2) 0 <<< 16) +
  (data.getD (m * 3 * n_ch + c * 3 + 1) 0 <<< 8) +
  data.getD (m * 3 * n_ch + c * 3) 0

/-- The decoding loops of `ActiveTwoClient._read` as a pure function of the
received buffer.  Indexing past the end of `data` raises `IndexError` in
Python; the guard `3 * n_ch * tcp ≤ data.length` holds exactly when every
accessed offset is in range (the largest accessed index is
`3 * n_ch * tcp - 1`), so the `none` branch models that exception.  Rows of
the result are channels, columns are the `tcp` time steps. -/
def decodeFrame (n_ch tcp : ℕ) (data : List ℕ) : Option (List (List ℕ)) :=
  if 3 * n_ch * tcp ≤ data.length then
    some ((List.range n_ch).map fun c => (List.range tcp).map fun m =>
      sampleAt data n_ch c m)
  else none

/-- Model of `ActiveTwoClient._read` at loop iteration `i`: one `sock.recv` from the
byte source followed by the decode loops.  Any failure — socket timeout,
disconnect, or a short read hitting `IndexError` — is `none`. -/
def readFrame (src : ℕ → Option (List ℕ)) (n_ch tcp i : ℕ) :
    Option (List (List ℕ)) :=
  (src i).bind (decodeFrame n_ch tcp)

/-- The `while samples < total_samples` loop of `ActiveTwoClient.read`: each
iteration tries one frame and any exception breaks the loop.  `fuel` bounds
the iteration count; `read` passes `fuel = total`, which suffices because a
successful iteration adds `tcp ≥ 1` samples (valid rates give `tcp ≥ 2`),
so the loop body runs at most `total` times. -/
def readLoop (src : ℕ → Option (List ℕ)) (n_ch tcp total : ℕ) :
    ℕ → ℕ → ℕ → List (List (List ℕ))
  | 0, _, _ => []
  | fuel + 1, i, samples =>
    if samples < total then
      match readFrame src n_ch tcp i with
      | some f => f :: readLoop src n_ch tcp total fuel (i + 1) (samples + tcp)
      | none => []
    else []

/-- Model of the Python built-in `round` (round-half-to-even) on an exact
rational, as used in
`int(round(duration * self.fs))`. -/
def pyRound (q : ℚ) : ℤ :=
  if q - ⌊q⌋ < 1 / 2 then ⌊q⌋
  else if 1 / 2 < q - ⌊q⌋ then ⌊q⌋ + 1
  else if ⌊q⌋ % 2 = 0 then ⌊q⌋ else ⌊q⌋ + 1

/-- The count `total_samples = int(round(duration * self.fs))`, clamped to `ℕ`: for a
negative value the `while` loop body never runs, exactly as with `toNat 0`. -/
def totalSamples (cl : Client) (duration : ℚ) : ℕ :=
  (pyRound (duration * (cl.fs : ℚ))).toNat

/-- Model of `np.concatenate(data, axis=-1)` over the collected per-frame matrices,
or `np.empty((self.n_channels, 0))` when nothing was collected. -/
def assemble (n_ch : ℕ) (frames : List (List (List ℕ))) : List (List ℕ) :=
  if frames.isEmpty then (List.range n_ch).map fun _ => []
  else (List.range n_ch).map fun c => (frames.map fun f => f.getD c []).flatten

/-- An entry of the dictionary returned by `read`: ordinary groups are 2-D
sub-arrays (`mat`); the trigger entry, indexed with `-1`, is the 1-D last
row (`vec`). -/
inductive Entry where
  | mat : List (List ℕ) → Entry
  | vec : List ℕ → Entry
deriving DecidableEq, Repr

/-- Numpy row indexing used in the final step of `read`: `data[a:b]` for a
slice selector and `data[-1]` for the trigger selector.  `data` always has
`n_channels ≥ 1` rows whenever a `lastIndex` selector exists, so `-1`
resolves to row `data.length - 1`. -/
def applySel (data : List (List ℕ)) : Sel → Entry
  | Sel.slc a b => Entry.mat ((data.take b).drop a)
  | Sel.lastIndex => Entry.vec (data.getD (data.length - 1) [])

/-- The `data` matrix assembled by `ActiveTwoClient.read` just before the
final slicing step. -/
def readMatrix (cl : Client) (src : ℕ → Option (List ℕ)) (duration : ℚ) :
    List (List ℕ) :=
  assemble cl.n_channels
    (readLoop src cl.n_channels cl.tcp_samples (totalSamples cl duration)
      (totalSamples cl duration) 0 0)

/-- Model of `ActiveTwoClient.read(duration)`: the returned dictionary
`{k: data[s] for k, s in self.slices.items()}`. -/
def read (cl : Client) (src : ℕ → Option (List ℕ)) (duration : ℚ) :
    List (String × Entry) :=
  cl.slices.map fun ks => (ks.1, applySel (readMatrix cl src duration) ks.2)

lemma SPEED_MODE_eq_none (s : ℕ) (h : 8 ≤ s) : SPEED_MODE s = none := by
  obtain ⟨n, rfl⟩ : ∃ n, s = n + 8 := ⟨s - 8, by omega⟩
  rfl

lemma toNat_decide_mod_two (y : ℕ) : (decide (y % 2 = 1)).toNat = y % 2 := by
  rcases Nat.mod_two_eq_zero_or_one y with h | h <;> simp [h]

lemma is_set_eq_testBit (x bit : ℕ) : is_set x bit = Nat.testBit x bit := by
  have h : x &&& (1 <<< bit) = (Nat.testBit x bit).toNat * 2 ^ bit := by
    rw [Nat.shiftLeft_eq, one_mul, Nat.and_two_pow]
  rw [is_set, h]
  cases Nat.testBit x bit
  · simp
  · simp [(Nat.two_pow_pos bit).ne']

/-- C1: whenever the packed speed-mode bits (17, 18, 19, 21) of the input
encode a value `8 ≤ s` (hence 8–15), `decode_trigger` raises `KeyError` on
the `SPEED_MODE` lookup and returns no `TriggerStatus` at all. -/
theorem decode_trigger_unmapped_speed_mode_fails (x : ℕ)
    (h : 8 ≤ speedModeOf x) : decode_trigger x = none := by
  simp [decode_trigger, SPEED_MODE_eq_none _ h]

/-- Witness for C1 at the concrete input 2097152 = 2^21 (speed-mode bit 3
set, so `speed_mode = 8`). -/
theorem decode_trigger_unmapped_speed_mode_fails_witness :
    8 ≤ speedModeOf 2097152 ∧ decode_trigger 2097152 = none :=
  ⟨by decide, decode_trigger_unmapped_speed_mode_fails 2097152 (by decide)⟩

/-- C5 counterexample: at input 2621440 = 2^19 + 2^21 (speed mode 12) the
function `decode_trigger` returns nothing, so the claim that it returns the
listed fields for every 24-bit input is false at this input. -/
theorem decode_trigger_fields_cex : decode_trigger 2621440 = none := by
  decide

/-- C5 (amended): for every input on which `decode_trigger` succeeds — those
with `speedModeOf x < 8` — the returned fields are the bit-extractions of the
claim: `trigger = x mod 2^16`, `new_epoch` = bit 16, `cms_in_range` = bit 20,
`low_battery` = bit 22, `activeMK2` = bit 23, and `speed_mode` packs bits
17, 18, 19, 21 as bits 0, 1, 2, 3 (bit 20 excluded). -/
theorem decode_trigger_fields (x : ℕ) (h : speedModeOf x < 8) :
    ∃ st, decode_trigger x = some st ∧
      st.trigger = x % 65536 ∧
      st.new_epoch = decide (x / 2 ^ 16 % 2 = 1) ∧
      st.cms_in_range = decide (x / 2 ^ 20 % 2 = 1) ∧
      st.low_battery = decide (x / 2 ^ 22 % 2 = 1) ∧
      st.activeMK2 = decide (x / 2 ^ 23 % 2 = 1) ∧
      st.speed_mode =
        x / 2 ^ 17 % 2 + 2 * (x / 2 ^ 18 % 2) + 4 * (x / 2 ^ 19 % 2) +
          8 * (x / 2 ^ 21 % 2) := by
  obtain ⟨fsv, hfs⟩ : ∃ v, SPEED_MODE (speedModeOf x) = some v := by
    interval_cases h : speedModeOf x <;> exact ⟨_, rfl⟩
  refine ⟨(⟨x &&& 65535, is_set x 20, is_set x 22, is_set x 23,
      speedModeOf x, is_set x 16, fsv⟩ : TriggerStatus),
    by simp [decode_trigger, hfs], ?_, ?_, ?_, ?_, ?_, ?_⟩
  · show x &&& 65535 = x % 65536
    have h1 : (65535 : ℕ) = 2 ^ 16 - 1 := by norm_num
    have h2 : (65536 : ℕ) = 2 ^ 16 := by norm_num
    rw [h1, h2, Nat.and_pow_two_sub_one_eq_mod]
  · show is_set x 16 = _
    rw [is_set_eq_testBit, Nat.testBit_to_div_mod]
  · show is_set x 20 = _
    rw [is_set_eq_testBit, Nat.testBit_to_div_mod]
  · show is_set x 22 = _
    rw [is_set_eq_testBit, Nat.testBit_to_div_mod]
  · show is_set x 23 = _
    rw [is_set_eq_testBit, Nat.testBit_to_div_mod]
  · show speedModeOf x = _
    rw [speedModeOf, is_set_eq_testBit, is_set_eq_testBit, is_set_eq_testBit,
      is_set_eq_testBit]
    simp only [Nat.testBit_to_div_mod, toNat_decide_mod_two, Nat.shiftLeft_eq,
      pow_zero, pow_one, mul_one]
    ring

/-- Witness for C5 at the concrete input 5 (speed mode 0). -/
theorem decode_trigger_fields_witness :
    speedModeOf 5 < 8 ∧
      ∃ st, decode_trigger 5 = some st ∧
        st.trigger = 5 % 65536 ∧
        st.new_epoch = decide (5 / 2 ^ 16 % 2 = 1) ∧
        st.cms_in_range = decide (5 / 2 ^ 20 % 2 = 1) ∧
        st.low_battery = decide (5 / 2 ^ 22 % 2 = 1) ∧
        st.activeMK2 = decide (5 / 2 ^ 23 % 2 = 1) ∧
        st.speed_mode =
          5 / 2 ^ 17 % 2 + 2 * (5 / 2 ^ 18 % 2) + 4 * (5 / 2 ^ 19 % 2) +
            8 * (5 / 2 ^ 21 % 2) :=
  ⟨by decide, decode_trigger_fields 5 (by decide)⟩

/-- C9: the input 11141120 = 0xAA0000 has bits 17, 19, 21, 23 set, so its
packed speed mode is 13; the `SPEED_MODE` table has no key 13, so
`decode_trigger 11141120` raises `KeyError` and returns no `TriggerStatus`. -/
theorem decode_trigger_0xAA0000 :
    speedModeOf 11141120 = 13 ∧ SPEED_MODE 13 = none ∧
      decode_trigger 11141120 = none := by
  decide

lemma den_div_16384_iff (fs : ℕ) (h0 : fs ≠ 0) :
    ((16384 : ℚ) / (fs : ℚ)).den = 1 ↔ fs ∣ 16384 := by
  have h := Rat.den_div_natCast_eq_one_iff 16384 fs h0
  norm_num at h
  exact h

lemma mem_valid_rates_of_dvd (fs : ℕ) (hdvd : fs ∣ 16384) (hlo : 256 ≤ fs) :
    fs ∈ ([256, 512, 1024, 2048, 4096, 8192, 16384] : List ℕ) := by
  have h2 : (16384 : ℕ) = 2 ^ 14 := by norm_num
  rw [h2] at hdvd
  obtain ⟨k, hk, rfl⟩ := (Nat.dvd_prime_pow Nat.prime_two).mp hdvd
  have h8 : 8 ≤ k := by
    by_contra hlt
    push_neg at hlt
    have hle : (2 : ℕ) ^ k ≤ 2 ^ 7 := Nat.pow_le_pow_right (by norm_num) (by omega)
    norm_num at hle
    omega
  interval_cases k <;> decide

lemma resolveTcpSamples_isSome_iff (fs : ℕ) :
    (resolveTcpSamples fs).isSome = true ↔
      fs ∈ ([256, 512, 1024, 2048, 4096, 8192, 16384] : List ℕ) := by
  constructor
  · intro h
    rw [resolveTcpSamples] at h
    split at h
    · simp at h
    · next hrange =>
      rw [not_not] at hrange
      split at h
      · simp at h
      · next hden =>
        rw [not_not] at hden
        have h0 : fs ≠ 0 := by omega
        exact mem_valid_rates_of_dvd fs ((den_div_16384_iff fs h0).mp hden) hrange.1
  · intro h
    fin_cases h <;> rw [resolveTcpSamples] <;> norm_num

lemma resolveTcpSamples_eq (fs t : ℕ) (h : resolveTcpSamples fs = some t) :
    t = 128 / (16384 / fs) := by
  have hmem := (resolveTcpSamples_isSome_iff fs).mp (by rw [h]; rfl)
  fin_cases hmem <;>
    (rw [resolveTcpSamples] at h; norm_num at h; omega)

/-- C3: client construction succeeds exactly for the requested rates in
{256, 512, 1024, 2048, 4096, 8192, 16384} — the integer divisors of 16384 in
[256, 16384] — and fails with the invalid-sampling-rate `ValueError` for
every other rate (in particular non-divisors such as 300); on success
`tcp_samples = 128 / (16384 / fs)`. -/
theorem mkClient_valid_rates (cfg : Config) :
    ((mkClient cfg).isSome = true ↔
      cfg.fs ∈ ([256, 512, 1024, 2048, 4096, 8192, 16384] : List ℕ)) ∧
    ∀ cl, mkClient cfg = some cl → cl.tcp_samples = 128 / (16384 / cfg.fs) := by
  constructor
  · have hsame : (mkClient cfg).isSome = (resolveTcpSamples cfg.fs).isSome := by
      rw [mkClient]
      cases resolveTcpSamples cfg.fs <;> rfl
    rw [hsame]
    exact resolveTcpSamples_isSome_iff cfg.fs
  · intro cl hcl
    rw [mkClient] at hcl
    rw [Option.map_eq_some'] at hcl
    obtain ⟨t, ht, rfl⟩ := hcl
    exact resolveTcpSamples_eq _ _ ht

/-- Witness for C3: the concrete configuration with fs = 512 (valid,
tcp_samples = 4 = 128 / (16384 / 512)), and fs = 300 rejected. -/
theorem mkClient_valid_rates_witness :
    (∃ cl, mkClient ⟨32, false, false, false, false, false, 512⟩ = some cl ∧
      cl.tcp_samples = 128 / (16384 / 512)) ∧
    mkClient ⟨32, false, false, false, false, false, 300⟩ = none := by
  have h512 : resolveTcpSamples 512 = some 4 := by
    rw [resolveTcpSamples]
    norm_num
    decide
  have h300 : resolveTcpSamples 300 = none := by
    rw [resolveTcpSamples]
    norm_num [Rat.den_div_natCast_eq_one_iff]
  constructor
  · have h : mkClient ⟨32, false, false, false, false, false, 512⟩ =
        some ⟨[("eeg", Sel.slc 0 32)], 32, 4, 384, 512⟩ := by
      rw [mkClient]
      show (resolveTcpSamples 512).map _ = _
      rw [h512]
      rfl
    exact ⟨_, h, (mkClient_valid_rates _).2 _ h⟩
  · rw [mkClient]
    show (resolveTcpSamples 300).map _ = _
    rw [h300]
    rfl

/-- Number of matrix rows a selector covers (a Python slice `[a:b]` covers
`b - a` rows; the trigger index `-1` covers one row). -/
def selLen : Sel → ℕ
  | Sel.slc a b => b - a
  | Sel.lastIndex => 1

/-- First row index a selector covers, with the `-1` trigger index resolved
against the final channel count `n_ch`. -/
def selStart (n_ch : ℕ) : Sel → ℕ
  | Sel.slc a _ => a
  | Sel.lastIndex => n_ch - 1

/-- The set of row indices a selector covers, as a contiguous block. -/
def selRows (n_ch : ℕ) (s : Sel) : List ℕ :=
  List.range' (selStart n_ch s) (selLen s)

/-- The groups in the list cover consecutive contiguous blocks of rows
starting at row `k`. -/
def seqFrom (n_ch : ℕ) : ℕ → List (String × Sel) → Prop
  | _, [] => True
  | k, ks :: rest => selStart n_ch ks.2 = k ∧ seqFrom n_ch (k + selLen ks.2) rest

lemma seqFrom_flatten (n_ch : ℕ) (gs : List (String × Sel)) :
    ∀ k : ℕ, seqFrom n_ch k gs →
      (gs.map fun ks => selRows n_ch ks.2).flatten =
        List.range' k ((gs.map fun ks => selLen ks.2).sum) := by
  induction gs with
  | nil => intro k _; rfl
  | cons ks rest ih =>
    intro k h
    obtain ⟨h1, h2⟩ := h
    simp only [List.map_cons, List.flatten_cons, List.sum_cons, ih _ h2]
    rw [selRows, h1, List.range'_append_1, Nat.add_comm]

lemma buildSlices_seqFrom (cfg : Config) :
    seqFrom (buildSlices cfg).2 0 (buildSlices cfg).1 := by
  obtain ⟨e, ex, se, ja, ab, tr, fs⟩ := cfg
  cases ex <;> cases se <;> cases ja <;> cases ab <;> cases tr <;>
    by_cases he : e = 0 <;>
    simp [buildSlices, seqFrom, selStart, selLen, he]

lemma buildSlices_sum (cfg : Config) :
    ((buildSlices cfg).1.map fun ks => selLen ks.2).sum = (buildSlices cfg).2 := by
  obtain ⟨e, ex, se, ja, ab, tr, fs⟩ := cfg
  cases ex <;> cases se <;> cases ja <;> cases ab <;> cases tr <;>
    by_cases he : e = 0 <;>
    simp [buildSlices, selLen, he]

lemma buildSlices_names (cfg : Config) :
    ((buildSlices cfg).1.map fun ks => (ks.1, selLen ks.2)) =
      ((if cfg.eeg_channels ≠ 0 then [("eeg", cfg.eeg_channels)] else []) ++
       (if cfg.ex_included then [("ex", 8)] else []) ++
       (if cfg.sensors_included then [("sensors", 7)] else []) ++
       (if cfg.jazz_included then [("jazz", 9)] else []) ++
       (if cfg.aib_included then [("aib", 32)] else []) ++
       (if cfg.trigger_included then [("trigger", 1)] else [])) := by
  obtain ⟨e, ex, se, ja, ab, tr, fs⟩ := cfg
  cases ex <;> cases se <;> cases ja <;> cases ab <;> cases tr <;>
    by_cases he : e = 0 <;>
    simp [buildSlices, selLen, he]

/-- C8: for every configuration the layout built at construction lists the
groups in the fixed order EEG, EX, sensors, jazz, AIB, trigger with fixed
widths (EEG caller-supplied, EX = 8, sensors = 7, jazz = 9, AIB = 32,
trigger = 1); each included group covers a contiguous block starting at the
running channel count; the group lengths sum to `n_channels`; and the
covered blocks, concatenated in order, are exactly the rows
`0, 1, …, n_channels - 1` (a partition with no gaps or overlaps, EEG — when
present — starting at 0 and the trigger occupying the last index). -/
theorem layout_partitions (cfg : Config) :
    seqFrom (buildSlices cfg).2 0 (buildSlices cfg).1 ∧
    ((buildSlices cfg).1.map fun ks => selLen ks.2).sum = (buildSlices cfg).2 ∧
    ((buildSlices cfg).1.map fun ks => selRows (buildSlices cfg).2 ks.2).flatten =
      List.range (buildSlices cfg).2 ∧
    ((buildSlices cfg).1.map fun ks => (ks.1, selLen ks.2)) =
      ((if cfg.eeg_channels ≠ 0 then [("eeg", cfg.eeg_channels)] else []) ++
       (if cfg.ex_included then [("ex", 8)] else []) ++
       (if cfg.sensors_included then [("sensors", 7)] else []) ++
       (if cfg.jazz_included then [("jazz", 9)] else []) ++
       (if cfg.aib_included then [("aib", 32)] else []) ++
       (if cfg.trigger_included then [("trigger", 1)] else [])) := by
  refine ⟨buildSlices_seqFrom cfg, buildSlices_sum cfg, ?_, buildSlices_names cfg⟩
  rw [seqFrom_flatten _ _ 0 (buildSlices_seqFrom cfg), buildSlices_sum cfg,
    List.range_eq_range']

lemma bytes_or_eq_add (b0 b1 b2 : ℕ) (h0 : b0 < 256) (h1 : b1 < 256) :
    b0 ||| (b1 <<< 8) ||| (b2 <<< 16) = (b2 <<< 16) + (b1 <<< 8) + b0 := by
  have p8 : (2 : ℕ) ^ 8 = 256 := by norm_num
  have p16 : (2 : ℕ) ^ 16 = 65536 := by norm_num
  have e1 : (2 : ℕ) ^ 8 * b1 + b0 = 2 ^ 8 * b1 ||| b0 :=
    Nat.mul_add_lt_is_or (by rw [p8]; exact h0) b1
  have e2 : (2 : ℕ) ^ 16 * b2 + (2 ^ 8 * b1 + b0) =
      2 ^ 16 * b2 ||| (2 ^ 8 * b1 + b0) :=
    Nat.mul_add_lt_is_or (by rw [p8, p16]; omega) b2
  rw [Nat.shiftLeft_eq, Nat.shiftLeft_eq, mul_comm b1, mul_comm b2,
    Nat.lor_comm b0 (2 ^ 8 * b1), Nat.lor_comm _ (2 ^ 16 * b2), ← e1, ← e2]
  ring

lemma decodeFrame_some (n_ch tcp : ℕ) (data : List ℕ)
    (hguard : 3 * n_ch * tcp ≤ data.length) :
    decodeFrame n_ch tcp data =
      some ((List.range n_ch).map fun c => (List.range tcp).map fun m =>
        sampleAt data n_ch c m) := by
  rw [decodeFrame, if_pos hguard]

lemma decode_matrix_entry (n_ch tcp : ℕ) (data : List ℕ) (c m : ℕ)
    (hc : c < n_ch) (hm : m < tcp) :
    (((List.range n_ch).map fun c => (List.range tcp).map fun m =>
        sampleAt data n_ch c m).getD c []).getD m 0 = sampleAt data n_ch c m := by
  simp [List.getD_eq_getElem?_getD, List.getElem?_map, List.getElem?_range,
    hc, hm]

lemma offset_bound (n_ch tcp c m : ℕ) (hc : c < n_ch) (hm : m < tcp) :
    m * 3 * n_ch + c * 3 + 2 < 3 * n_ch * tcp := by
  have h1 : c * 3 + 3 ≤ n_ch * 3 := by omega
  have h2 : m * 3 * n_ch + 3 * n_ch ≤ tcp * 3 * n_ch := by
    have : (m + 1) * 3 * n_ch ≤ tcp * 3 * n_ch :=
      Nat.mul_le_mul_right n_ch (Nat.mul_le_mul_right 3 hm)
    calc m * 3 * n_ch + 3 * n_ch = (m + 1) * 3 * n_ch := by ring
      _ ≤ tcp * 3 * n_ch := this
  calc m * 3 * n_ch + c * 3 + 2 < m * 3 * n_ch + n_ch * 3 := by omega
    _ = m * 3 * n_ch + 3 * n_ch := by ring
    _ ≤ tcp * 3 * n_ch := h2
    _ = 3 * n_ch * tcp := by ring

lemma byte_lt (data : List ℕ) (hbytes : ∀ b ∈ data, b < 256) (i : ℕ)
    (hi : i < data.length) : data.getD i 0 < 256 := by
  rw [List.getD_eq_getElem data 0 hi]
  exact hbytes _ (List.getElem_mem hi)

/-- C7: for every raw buffer of exactly `n_channels * frame_samples * 3`
bytes, the decoder returns an `n_channels × frame_samples` channel-major
matrix whose entry at channel `c`, sample `m` is
`buffer[offset] ||| buffer[offset+1] <<< 8 ||| buffer[offset+2] <<< 16`
with `offset = m * 3 * n_channels + c * 3`; every entry lies below `2^24`
(little-endian unsigned, no sign extension). -/
theorem decodeFrame_spec (n_ch tcp : ℕ) (data : List ℕ)
    (hlen : data.length = n_ch * tcp * 3) (hbytes : ∀ b ∈ data, b < 256) :
    ∃ M, decodeFrame n_ch tcp data = some M ∧
      M.length = n_ch ∧ (∀ row ∈ M, row.length = tcp) ∧
      ∀ c m, c < n_ch → m < tcp →
        (M.getD c []).getD m 0 =
          (data.getD (m * 3 * n_ch + c * 3) 0 |||
           (data.getD (m * 3 * n_ch + c * 3 + 1) 0 <<< 8) |||
           (data.getD (m * 3 * n_ch + c * 3 + 2) 0 <<< 16)) ∧
        (M.getD c []).getD m 0 < 2 ^ 24 := by
  have hguard : 3 * n_ch * tcp ≤ data.length := by
    rw [hlen]
    exact le_of_eq (by ring)
  refine ⟨_, decodeFrame_some n_ch tcp data hguard, by simp, ?_, ?_⟩
  · intro row hrow
    simp only [List.mem_map, List.mem_range] at hrow
    obtain ⟨c, _, rfl⟩ := hrow
    simp
  · intro c m hc hm
    have hoff := offset_bound n_ch tcp c m hc hm
    have hb0 : data.getD (m * 3 * n_ch + c * 3) 0 < 256 :=
      byte_lt data hbytes _ (by omega)
    have hb1 : data.getD (m * 3 * n_ch + c * 3 + 1) 0 < 256 :=
      byte_lt data hbytes _ (by omega)
    have hb2 : data.getD (m * 3 * n_ch + c * 3 + 2) 0 < 256 :=
      byte_lt data hbytes _ (by omega)
    rw [decode_matrix_entry n_ch tcp data c m hc hm]
    constructor
    · rw [sampleAt, bytes_or_eq_add _ _ _ hb0 hb1]
    · rw [sampleAt, Nat.shiftLeft_eq, Nat.shiftLeft_eq]
      have p8 : (2 : ℕ) ^ 8 = 256 := by norm_num
      have p16 : (2 : ℕ) ^ 16 = 65536 := by norm_num
      have p24 : (2 : ℕ) ^ 24 = 16777216 := by norm_num
      rw [p8, p16, p24]
      omega

/-- Witness for C7 at a concrete 1-channel, 1-sample buffer [1, 2, 3]. -/
theorem decodeFrame_spec_witness :
    ∃ M, decodeFrame 1 1 [1, 2, 3] = some M ∧
      M.length = 1 ∧ (∀ row ∈ M, row.length = 1) ∧
      ∀ c m, c < 1 → m < 1 →
        (M.getD c []).getD m 0 =
          (([1, 2, 3] : List ℕ).getD (m * 3 * 1 + c * 3) 0 |||
           (([1, 2, 3] : List ℕ).getD (m * 3 * 1 + c * 3 + 1) 0 <<< 8) |||
           (([1, 2, 3] : List ℕ).getD (m * 3 * 1 + c * 3 + 2) 0 <<< 16)) ∧
        (M.getD c []).getD m 0 < 2 ^ 24 :=
  decodeFrame_spec 1 1 [1, 2, 3] (by decide) (by decide)

/-- The 3-byte little-endian encoding of a 24-bit value `v`, written into
`buf` at offset `off` (byte order as transmitted on the wire: low byte
first, exactly what `_read` reverses when it decodes). -/
def writeSample (buf : List ℕ) (off v : ℕ) : List ℕ :=
  ((buf.set off (v % 256)).set (off + 1) (v / 256 % 256)).set
    (off + 2) (v / 65536 % 256)

/-- C6: round-trip — encoding any `v < 2^24` as 3 little-endian bytes at
offset `m * 3 * n_channels + c * 3` of a frame buffer and decoding the
buffer yields `v` back at matrix position `(c, m)`. -/
theorem encode_decode_roundtrip (n_ch tcp c m v : ℕ) (buf : List ℕ)
    (hlen : buf.length = n_ch * tcp * 3) (hc : c < n_ch) (hm : m < tcp)
    (hv : v < 2 ^ 24) :
    ∃ M, decodeFrame n_ch tcp (writeSample buf (m * 3 * n_ch + c * 3) v) =
        some M ∧ (M.getD c []).getD m 0 = v := by
  have hoff := offset_bound n_ch tcp c m hc hm
  have hwlen : (writeSample buf (m * 3 * n_ch + c * 3) v).length = buf.length := by
    simp [writeSample]
  have hguard : 3 * n_ch * tcp ≤ (writeSample buf (m * 3 * n_ch + c * 3) v).length := by
    rw [hwlen, hlen]
    exact le_of_eq (by ring)
  refine ⟨_, decodeFrame_some n_ch tcp _ hguard, ?_⟩
  rw [decode_matrix_entry n_ch tcp _ c m hc hm]
  have hlt0 : m * 3 * n_ch + c * 3 < buf.length := by omega
  have hlt1 : m * 3 * n_ch + c * 3 + 1 < buf.length := by omega
  have hlt2 : m * 3 * n_ch + c * 3 + 2 < buf.length := by omega
  have g2 : (writeSample buf (m * 3 * n_ch + c * 3) v).getD
      (m * 3 * n_ch + c * 3 + 2) 0 = v / 65536 % 256 := by
    simp [writeSample, List.getD_eq_getElem?_getD, List.getElem?_set_self,
      hlt2, hwlen]
  have g1 : (writeSample buf (m * 3 * n_ch + c * 3) v).getD
      (m * 3 * n_ch + c * 3 + 1) 0 = v / 256 % 256 := by
    rw [writeSample, List.getD_eq_getElem?_getD,
      List.getElem?_set_ne (by omega),
      List.getElem?_set_self (by simpa using hlt1)]
    rfl
  have g0 : (writeSample buf (m * 3 * n_ch + c * 3) v).getD
      (m * 3 * n_ch + c * 3) 0 = v % 256 := by
    rw [writeSample, List.getD_eq_getElem?_getD,
      List.getElem?_set_ne (by omega), List.getElem?_set_ne (by omega),
      List.getElem?_set_self hlt0]
    rfl
  rw [sampleAt, g0, g1, g2, Nat.shiftLeft_eq, Nat.shiftLeft_eq]
  have p8 : (2 : ℕ) ^ 8 = 256 := by norm_num
  have p16 : (2 : ℕ) ^ 16 = 65536 := by norm_num
  have p24 : (2 : ℕ) ^ 24 = 16777216 := by norm_num
  rw [p8, p16]
  rw [p24] at hv
  omega

/-- Witness for C6 at n_ch = 2, tcp = 1, c = 1, m = 0, v = 65537 set into a
zero buffer of 6 bytes. -/
theorem encode_decode_roundtrip_witness :
    ∃ M, decodeFrame 2 1
        (writeSample [0, 0, 0, 0, 0, 0] (0 * 3 * 2 + 1 * 3) 65537) = some M ∧
      (M.getD 1 []).getD 0 0 = 65537 :=
  encode_decode_roundtrip 2 1 1 0 65537 [0, 0, 0, 0, 0, 0] (by decide)
    (by decide) (by decide) (by decide)

lemma readFrame_wf (src : ℕ → Option (List ℕ)) (n_ch tcp i : ℕ)
    (M : List (List ℕ)) (h : readFrame src n_ch tcp i = some M) :
    M.length = n_ch ∧ ∀ row ∈ M, row.length = tcp := by
  rw [readFrame] at h
  cases hsrc : src i with
  | none => rw [hsrc] at h; simp at h
  | some data =>
    rw [hsrc] at h
    simp only [Option.some_bind] at h
    rw [decodeFrame] at h
    split at h
    · obtain rfl := Option.some_injective _ h.symm
      constructor
      · simp
      · intro row hrow
        simp only [List.mem_map, List.mem_range] at hrow
        obtain ⟨c, _, rfl⟩ := hrow
        simp
    · simp at h

lemma readLoop_zero (src : ℕ → Option (List ℕ)) (n_ch tcp total i samples : ℕ) :
    readLoop src n_ch tcp total 0 i samples = [] := rfl

lemma readLoop_succ (src : ℕ → Option (List ℕ))
    (n_ch tcp total fuel i samples : ℕ) :
    readLoop src n_ch tcp total (fuel + 1) i samples =
      if samples < total then
        match readFrame src n_ch tcp i with
        | some f => f :: readLoop src n_ch tcp total fuel (i + 1) (samples + tcp)
        | none => []
      else [] := rfl

lemma readLoop_wf (src : ℕ → Option (List ℕ)) (n_ch tcp total : ℕ) :
    ∀ (fuel i samples : ℕ) (f : List (List ℕ)),
      f ∈ readLoop src n_ch tcp total fuel i samples →
      f.length = n_ch ∧ ∀ row ∈ f, row.length = tcp := by
  intro fuel
  induction fuel with
  | zero => intro i samples f hf; rw [readLoop_zero] at hf; simp at hf
  | succ fuel ih =>
    intro i samples f hf
    rw [readLoop_succ] at hf
    split at hf
    · cases hfr : readFrame src n_ch tcp i with
      | none => rw [hfr] at hf; simp at hf
      | some g =>
        rw [hfr] at hf
        rcases List.mem_cons.mp hf with rfl | hmem
        · exact readFrame_wf src n_ch tcp i f hfr
        · exact ih (i + 1) (samples + tcp) f hmem
    · simp at hf

lemma ceil_div_step (d tcp : ℕ) (htcp : 0 < tcp) (hd : 0 < d) :
    (d + tcp - 1) / tcp = (d - tcp + tcp - 1) / tcp + 1 := by
  rcases Nat.le_total d tcp with hle | hgt
  · have h1 : d - tcp = 0 := by omega
    rw [h1]
    have h2 : (0 + tcp - 1) / tcp = 0 := Nat.div_eq_of_lt (by omega)
    rw [h2]
    have h3 : 1 * tcp ≤ d + tcp - 1 := by omega
    have h4 : d + tcp - 1 < (1 + 1) * tcp := by omega
    rw [Nat.div_eq_of_lt_le h3 h4]
  · have h1 : d + tcp - 1 = (d - 1) + tcp := by omega
    have h2 : d - tcp + tcp - 1 = d - 1 := by omega
    rw [h1, h2, Nat.add_div_right _ htcp]

lemma readLoop_length_success (src : ℕ → Option (List ℕ))
    (n_ch tcp total : ℕ) (htcp : 0 < tcp)
    (hs : ∀ i, (readFrame src n_ch tcp i).isSome = true) :
    ∀ (fuel samples i : ℕ), total - samples ≤ fuel →
      (readLoop src n_ch tcp total fuel i samples).length =
        (total - samples + tcp - 1) / tcp := by
  intro fuel
  induction fuel with
  | zero =>
    intro samples i hfuel
    rw [readLoop_zero]
    have h0 : total - samples = 0 := by omega
    rw [h0]
    have h2 : (0 + tcp - 1) / tcp = 0 := Nat.div_eq_of_lt (by omega)
    rw [h2]
    rfl
  | succ fuel ih =>
    intro samples i hfuel
    rw [readLoop_succ]
    split
    · next hlt =>
      obtain ⟨f, hf⟩ := Option.isSome_iff_exists.mp (hs i)
      rw [hf]
      simp only [List.length_cons]
      rw [ih (samples + tcp) (i + 1) (by omega)]
      have hd : 0 < total - samples := by omega
      have hsub : total - (samples + tcp) = (total - samples) - tcp := by omega
      rw [hsub, ← ceil_div_step (total - samples) tcp htcp hd]
    · next hge =>
      have h0 : total - samples = 0 := by omega
      rw [h0]
      have h2 : (0 + tcp - 1) / tcp = 0 := Nat.div_eq_of_lt (by omega)
      rw [h2]
      rfl

lemma readLoop_length_fail (src : ℕ → Option (List ℕ)) (n_ch tcp total : ℕ) :
    ∀ (j fuel i samples : ℕ),
      (∀ k, k < j → (readFrame src n_ch tcp (i + k)).isSome = true) →
      readFrame src n_ch tcp (i + j) = none →
      samples + j * tcp < total → j < fuel →
      (readLoop src n_ch tcp total fuel i samples).length = j := by
  intro j
  induction j with
  | zero =>
    intro fuel i samples _ hfail hneed hfuel
    obtain ⟨fuel, rfl⟩ : ∃ g, fuel = g + 1 := ⟨fuel - 1, by omega⟩
    rw [readLoop_succ, if_pos (by omega)]
    simp only [Nat.add_zero] at hfail
    rw [hfail]
    rfl
  | succ j ih =>
    intro fuel i samples hsucc hfail hneed hfuel
    obtain ⟨fuel, rfl⟩ : ∃ g, fuel = g + 1 := ⟨fuel - 1, by omega⟩
    rw [Nat.succ_mul] at hneed
    rw [readLoop_succ, if_pos (by omega)]
    obtain ⟨f, hf⟩ := Option.isSome_iff_exists.mp (hsucc 0 (by omega))
    simp only [Nat.add_zero] at hf
    rw [hf]
    simp only [List.length_cons]
    rw [ih fuel (i + 1) (samples + tcp)
      (fun k hk => by
        have hks := hsucc (k + 1) (by omega)
        rw [show i + (k + 1) = i + 1 + k by omega] at hks
        exact hks)
      (by rw [show i + 1 + j = i + (j + 1) by omega]; exact hfail)
      (by omega) (by omega)]

lemma assemble_length (n_ch : ℕ) (frames : List (List (List ℕ))) :
    (assemble n_ch frames).length = n_ch := by
  rw [assemble]
  split <;> simp

lemma sum_map_const_nat {α : Type} (l : List α) (b : ℕ) :
    (l.map fun _ => b).sum = l.length * b := by
  induction l with
  | nil => simp
  | cons x xs ih => simp [ih, Nat.succ_mul, Nat.add_comm]

lemma assemble_row_length (n_ch tcp : ℕ) (frames : List (List (List ℕ)))
    (hwf : ∀ f ∈ frames, f.length = n_ch ∧ ∀ row ∈ f, row.length = tcp) :
    ∀ row ∈ assemble n_ch frames, row.length = frames.length * tcp := by
  intro row hrow
  rw [assemble] at hrow
  split at hrow
  · next hempty =>
    simp only [List.mem_map, List.mem_range] at hrow
    obtain ⟨c, _, rfl⟩ := hrow
    have : frames = [] := List.isEmpty_iff.mp hempty
    simp [this]
  · simp only [List.mem_map, List.mem_range] at hrow
    obtain ⟨c, hc, rfl⟩ := hrow
    rw [List.length_flatten, List.map_map]
    have hcongr : frames.map (List.length ∘ fun f => f.getD c []) =
        frames.map fun _ => tcp := by
      apply List.map_congr_left
      intro f hf
      obtain ⟨hflen, hrows⟩ := hwf f hf
      have hclt : c < f.length := by omega
      simp only [Function.comp]
      rw [List.getD_eq_getElem f [] hclt]
      exact hrows _ (List.getElem_mem hclt)
    rw [hcongr, sum_map_const_nat]

lemma mkClient_tcp_pos (cfg : Config) (cl : Client) (h : mkClient cfg = some cl) :
    0 < cl.tcp_samples := by
  rw [mkClient, Option.map_eq_some'] at h
  obtain ⟨t, ht, rfl⟩ := h
  show 0 < t
  have hmem := (resolveTcpSamples_isSome_iff cfg.fs).mp (by rw [ht]; rfl)
  have heq := resolveTcpSamples_eq cfg.fs t ht
  simp only [List.mem_cons, List.mem_singleton, List.not_mem_nil, or_false] at hmem
  rcases hmem with h | h | h | h | h | h | h <;> rw [h] at heq <;> omega

/-- C4: on an always-succeeding byte source the loop accumulates whole
frames, checking `samples < total_samples` before each receive, so every
channel row of the matrix assembled by `read(duration)` has exactly
`tcp_samples * ⌈total_samples / tcp_samples⌉` columns — frame-granular
overshoot, never truncation — where
`total_samples = int(round(duration * fs))` and the ceiling is written
`(total_samples + tcp_samples - 1) / tcp_samples`. -/
theorem read_overshoot (cfg : Config) (cl : Client) (src : ℕ → Option (List ℕ))
    (duration : ℚ) (hcl : mkClient cfg = some cl)
    (hs : ∀ i, (readFrame src cl.n_channels cl.tcp_samples i).isSome = true) :
    (readMatrix cl src duration).length = cl.n_channels ∧
    ∀ row ∈ readMatrix cl src duration,
      row.length = cl.tcp_samples *
        ((totalSamples cl duration + cl.tcp_samples - 1) / cl.tcp_samples) := by
  have htcp := mkClient_tcp_pos cfg cl hcl
  constructor
  · exact assemble_length _ _
  · intro row hrow
    rw [readMatrix] at hrow
    have hwf := fun f hf =>
      readLoop_wf src cl.n_channels cl.tcp_samples (totalSamples cl duration)
        (totalSamples cl duration) 0 0 f hf
    have hrl := assemble_row_length cl.n_channels cl.tcp_samples _ hwf row hrow
    rw [hrl, readLoop_length_success src cl.n_channels cl.tcp_samples
      (totalSamples cl duration) htcp hs (totalSamples cl duration) 0 0
      (by omega), Nat.sub_zero, Nat.mul_comm]

set_option maxRecDepth 4000 in
/-- Witness for C4: one EEG channel at fs = 16384 (tcp_samples = 128) with a
byte source that always yields 384 zero bytes. -/
theorem read_overshoot_witness :
    ∃ cl, mkClient ⟨1, false, false, false, false, false, 16384⟩ = some cl ∧
      ((readMatrix cl (fun _ => some (List.replicate 384 0)) 1).length =
          cl.n_channels ∧
        ∀ row ∈ readMatrix cl (fun _ => some (List.replicate 384 0)) 1,
          row.length = cl.tcp_samples *
            ((totalSamples cl 1 + cl.tcp_samples - 1) / cl.tcp_samples)) := by
  have hr : resolveTcpSamples 16384 = some 128 := by
    rw [resolveTcpSamples]
    norm_num
    decide
  have hcl : mkClient ⟨1, false, false, false, false, false, 16384⟩ =
      some ⟨[("eeg", Sel.slc 0 1)], 1, 128, 384, 16384⟩ := by
    rw [mkClient]
    show (resolveTcpSamples 16384).map _ = _
    rw [hr]
    decide
  exact ⟨_, hcl, read_overshoot _ _ _ 1 hcl (fun i => rfl)⟩

/-- C2: if the byte source fails at iteration `j` (after `j` successes)
while more samples are still needed, the loop terminates immediately and
`read` returns the accumulated data with no error: a well-formed matrix of
`n_channels` rows and `j * tcp_samples` columns.  With `j = 0` — failure on
the very first call — this is `n_channels` rows and 0 columns, never an
error and never null (the assembled matrix is `np.empty((n_channels, 0))`,
not `None`). -/
theorem read_truncated_on_failure (cfg : Config) (cl : Client)
    (src : ℕ → Option (List ℕ)) (duration : ℚ) (j : ℕ)
    (hcl : mkClient cfg = some cl)
    (hsucc : ∀ k, k < j →
      (readFrame src cl.n_channels cl.tcp_samples k).isSome = true)
    (hfail : readFrame src cl.n_channels cl.tcp_samples j = none)
    (hneed : j * cl.tcp_samples < totalSamples cl duration) :
    (readMatrix cl src duration).length = cl.n_channels ∧
    ∀ row ∈ readMatrix cl src duration, row.length = j * cl.tcp_samples := by
  have htcp := mkClient_tcp_pos cfg cl hcl
  have hjlt : j < totalSamples cl duration := by
    have hle : j ≤ j * cl.tcp_samples := Nat.le_mul_of_pos_right j htcp
    omega
  constructor
  · exact assemble_length _ _
  · intro row hrow
    rw [readMatrix] at hrow
    have hwf := fun f hf =>
      readLoop_wf src cl.n_channels cl.tcp_samples (totalSamples cl duration)
        (totalSamples cl duration) 0 0 f hf
    have hrl := assemble_row_length cl.n_channels cl.tcp_samples _ hwf row hrow
    rw [hrl, readLoop_length_fail src cl.n_channels cl.tcp_samples
      (totalSamples cl duration) j (totalSamples cl duration) 0 0
      (fun k hk => by simpa using hsucc k hk) (by simpa using hfail)
      (by simpa using hneed) hjlt]

/-- Witness for C2: one EEG channel at fs = 16384, a byte source that fails
on the very first call (j = 0), duration 1 s: the result has 1 row and
0 columns. -/
theorem read_truncated_on_failure_witness :
    ∃ cl, mkClient ⟨1, false, false, false, false, false, 16384⟩ = some cl ∧
      ((readMatrix cl (fun _ => none) 1).length = cl.n_channels ∧
        ∀ row ∈ readMatrix cl (fun _ => none) 1,
          row.length = 0 * cl.tcp_samples) := by
  have hr : resolveTcpSamples 16384 = some 128 := by
    rw [resolveTcpSamples]
    norm_num
    decide
  have hcl : mkClient ⟨1, false, false, false, false, false, 16384⟩ =
      some ⟨[("eeg", Sel.slc 0 1)], 1, 128, 384, 16384⟩ := by
    rw [mkClient]
    show (resolveTcpSamples 16384).map _ = _
    rw [hr]
    decide
  have htot : totalSamples ⟨[("eeg", Sel.slc 0 1)], 1, 128, 384, 16384⟩ 1 =
      16384 := by
    rw [totalSamples, pyRound]
    norm_num
    decide
  refine ⟨_, hcl, read_truncated_on_failure _ _ _ 1 0 hcl
    (fun k hk => absurd hk (by omega)) rfl ?_⟩
  rw [htot]
  omega

lemma lookup_map_snd (l : List (String × Sel)) (f : Sel → Entry) (a : String) :
    (l.map fun ks => (ks.1, f ks.2)).lookup a = (l.lookup a).map f := by
  induction l with
  | nil => rfl
  | cons ks rest ih =>
    obtain ⟨k, s⟩ := ks
    simp only [List.map_cons, List.lookup]
    cases a == k <;> simp [ih]

lemma buildSlices_lookup_trigger (cfg : Config)
    (htr : cfg.trigger_included = true) :
    (buildSlices cfg).1.lookup "trigger" = some Sel.lastIndex := by
  obtain ⟨e, ex, se, ja, ab, tr, fs⟩ := cfg
  cases ex <;> cases se <;> cases ja <;> cases ab <;> by_cases he : e = 0 <;>
    simp_all [buildSlices, List.lookup]

lemma readMatrix_length (cl : Client) (src : ℕ → Option (List ℕ))
    (duration : ℚ) : (readMatrix cl src duration).length = cl.n_channels :=
  assemble_length _ _

/-- C10: whenever the trigger group is configured, the entry the returned
mapping holds under the key "trigger" is the one-dimensional last row of the
assembled matrix (row index `-1`, i.e. `n_channels - 1`), an `Entry.vec` —
not a two-dimensional 1 × n sub-array (`Entry.mat`) like every other
group. -/
theorem read_trigger_last_row (cfg : Config) (cl : Client)
    (src : ℕ → Option (List ℕ)) (duration : ℚ)
    (hcl : mkClient cfg = some cl) (htr : cfg.trigger_included = true) :
    (read cl src duration).lookup "trigger" =
      some (Entry.vec ((readMatrix cl src duration).getD
        (cl.n_channels - 1) [])) := by
  have hslices : cl.slices = (buildSlices cfg).1 := by
    rw [mkClient, Option.map_eq_some'] at hcl
    obtain ⟨t, _, rfl⟩ := hcl
    rfl
  rw [read, lookup_map_snd, hslices, buildSlices_lookup_trigger cfg htr,
    Option.map_some']
  rw [applySel, readMatrix_length]

/-- Witness for C10: trigger-only configuration (eeg_channels = 0,
trigger_included) at fs = 512, with a byte source failing immediately. -/
theorem read_trigger_last_row_witness :
    ∃ cl, mkClient ⟨0, false, false, false, false, true, 512⟩ = some cl ∧
      (read cl (fun _ => none) 1).lookup "trigger" =
        some (Entry.vec ((readMatrix cl (fun _ => none) 1).getD
          (cl.n_channels - 1) [])) := by
  have hr : resolveTcpSamples 512 = some 4 := by
    rw [resolveTcpSamples]
    norm_num
    decide
  have hcl : mkClient ⟨0, false, false, false, false, true, 512⟩ =
      some ⟨[("trigger", Sel.lastIndex)], 1, 4, 12, 512⟩ := by
    rw [mkClient]
    show (resolveTcpSamples 512).map _ = _
    rw [hr]
    rfl
  exact ⟨_, hcl, read_trigger_last_row _ _ _ 1 hcl rfl⟩

end PyActiveTwo
